import Mathlib

/-
Verification of the core of vmadhuvarshi/wifiscanner (src/server.py).

The Python source is shallowly embedded below.  Machine floats of the source
hold only values produced by `float()` on decimal text, halves and tenths, so
they are modelled as exact rationals; Python `round(x, 1)` is modelled as
round-half-to-even at one decimal (`roundTenth`), and Python `int(x)` as
truncation toward zero (`pyInt`).  Raw command text is embedded at the
granularity the source consumes it: the scan parser works line by line, so
its input is the per-line classification the source computes with
`startswith` plus the payload of the regular expression on that line; the
interface inspector runs one `re.search` per attribute over the whole text,
so its input is the record of those optional match payloads.  A subprocess
invocation that raises (or produces no output) is a `PyResult.exc`.
-/

set_option maxRecDepth 8000


/-- Computable floor of a rational, used so that concrete evaluation goes
through the kernel (Mathlib's `Int.floor` on `ℚ` is irreducible). -/
def ratFloor (q : ℚ) : ℤ := Int.fdiv q.num q.den

/-- Python `int(q)` for the values reached here: truncation toward zero. -/
def pyInt (q : ℚ) : ℤ := if q < 0 then -(ratFloor (-q)) else ratFloor q

/-- Python `round(x, 1)` numerator: round to the nearest integer, ties to the
even integer (banker's rounding, as Python uses). -/
def halfEvenRound (q : ℚ) : ℤ :=
  let f := ratFloor q
  let r := q - f
  if r < 1/2 then f
  else if (1:ℚ)/2 < r then f + 1
  else if f % 2 = 0 then f else f + 1

/-- Python `round(x, 1)`: round to the nearest multiple of 1/10, ties to even. -/
def roundTenth (q : ℚ) : ℚ := (halfEvenRound (q * 10) : ℚ) / 10

/-- Does the character list start with the pattern list? -/
def startsWithL : List Char → List Char → Bool
  | _, [] => true
  | [], _ :: _ => false
  | c :: cs, d :: ds => c == d && startsWithL cs ds

/-- Does the character list contain the pattern list as a contiguous segment? -/
def containsSeg (pat : List Char) : List Char → Bool
  | [] => startsWithL [] pat
  | c :: cs => startsWithL (c :: cs) pat || containsSeg pat cs

/-- Python `pat in s` on strings: substring containment. -/
def strContains (s pat : String) : Bool := containsSeg pat.toList s.toList

/-- Python `s.lower()` (ASCII is all that the source compares). -/
def lowerStr (s : String) : String := String.mk (s.toList.map Char.toLower)

/-- Result of a Python call that can raise: `exc` is a raised exception. -/
inductive PyResult (α : Type) : Type
  | ok (a : α)
  | exc (msg : String)
deriving DecidableEq

/-- One parsed access-point record, the dict built in `_parse_windows`
(server.py lines 79-85): keys ssid, bssid, rssi, signal_percent, channel. -/
structure Rec where
  ssid : String
  bssid : String
  rssi : ℤ
  signal_percent : ℕ
  channel : ℕ
deriving DecidableEq

/-- Classification of one stripped line of `netsh wlan show networks` output,
as computed by `_parse_windows` (server.py lines 65-95): a line starting with
"SSID" (and not containing "BSSID") is an SSID header whose payload is the
group of `SSID\s+\d+\s*:\s*(.*)` if it matched; a line starting with "BSSID"
is a BSSID header with the group of `BSSID\s+\d+\s*:\s*(.*)`; lines starting
with "Signal" / "Channel" carry the numeric group of their regex when it
matched; everything else is `other`. -/
inductive ScanLine : Type
  | ssidHdr (name : Option String)
  | bssidHdr (id : Option String)
  | signal (pct : Option ℕ)
  | channel (ch : Option ℕ)
  | other
deriving DecidableEq

/-- Loop body of `_parse_windows` (server.py lines 61-99).  `cs` is
`current_ssid`, `cur` is `current_bssid` (None or the record being filled),
`acc` is `networks`.  A record is flushed when a new SSID/BSSID header
arrives or input ends, and only if its bssid is non-empty; on an SSID header
a flushed record resets `current_bssid` to None, an unflushed (empty-bssid)
record is kept. -/
def parseWindowsAux (cs : String) (cur : Option Rec) (acc : List Rec) :
    List ScanLine → List Rec
  | [] =>
    match cur with
    | some b => if b.bssid ≠ "" then acc ++ [b] else acc
    | none => acc
  | l :: rest =>
    match l with
    | .ssidHdr name =>
      let cs' := name.getD "Hidden"
      match cur with
      | some b =>
        if b.bssid ≠ "" then parseWindowsAux cs' none (acc ++ [b]) rest
        else parseWindowsAux cs' (some b) acc rest
      | none => parseWindowsAux cs' none acc rest
    | .bssidHdr id =>
      let newRec : Rec := ⟨cs, id.getD "", -100, 0, 0⟩
      match cur with
      | some b =>
        if b.bssid ≠ "" then parseWindowsAux cs (some newRec) (acc ++ [b]) rest
        else parseWindowsAux cs (some newRec) acc rest
      | none => parseWindowsAux cs (some newRec) acc rest
    | .signal pct =>
      match cur, pct with
      | some b, some p =>
        parseWindowsAux cs
          (some { b with rssi := pyInt ((p : ℚ) / 2 - 100), signal_percent := p })
          acc rest
      | some b, none => parseWindowsAux cs (some b) acc rest
      | none, _ => parseWindowsAux cs cur acc rest
    | .channel ch =>
      match cur, ch with
      | some b, some c => parseWindowsAux cs (some { b with channel := c }) acc rest
      | some b, none => parseWindowsAux cs (some b) acc rest
      | none, _ => parseWindowsAux cs cur acc rest
    | .other => parseWindowsAux cs cur acc rest

/-- `_parse_windows` (server.py lines 55-99), over classified lines. -/
def parseWindows (ls : List ScanLine) : List Rec :=
  parseWindowsAux "Hidden" none [] ls

/-- The key under which `_dedup_by_ssid` stores a record:
`net.get("ssid") or "Hidden"` (server.py line 110) maps an empty ssid
to "Hidden". -/
def dedupKey (r : Rec) : String := if r.ssid = "" then "Hidden" else r.ssid

/-- One iteration of the `_dedup_by_ssid` loop on the insertion-ordered dict
`best`, modelled as an association list (server.py lines 108-113): a new key
is appended at the end, an existing key's record is replaced in place when
the new record's rssi is strictly greater. -/
def updBest (m : List (String × Rec)) (k : String) (net : Rec) :
    List (String × Rec) :=
  match m with
  | [] => [(k, net)]
  | (k', r) :: rest =>
    if k' = k then (if net.rssi > r.rssi then (k, net) else (k', r)) :: rest
    else (k', r) :: updBest rest k net

/-- `_dedup_by_ssid` (server.py lines 102-114): keep only the
strongest-signal record per SSID; `list(best.values())`. -/
def dedupBySsid (nets : List Rec) : List Rec :=
  (nets.foldl (fun m net => updBest m (dedupKey net) net) []).map Prod.snd

/-- `scan_networks` (server.py lines 117-131): parse then dedup; its
`try/except` turns any raised failure into an empty list. -/
def scanNetworks : PyResult (List ScanLine) → List Rec
  | .ok ls => dedupBySsid (parseWindows ls)
  | .exc _ => []

/-- One publication per cycle of `_network_poll_loop` (server.py lines
432-438): the loop body has no handler of its own and publishes whatever
`scan_networks` returned, every cycle. -/
def networkPollRun (cycles : List (PyResult (List ScanLine))) : List (List Rec) :=
  cycles.map scanNetworks

/-- Association-list lookup, modelling `best.get(ssid)`. -/
def lookupB : List (String × Rec) → String → Option Rec
  | [], _ => none
  | (k', r) :: rest, k => if k' = k then some r else lookupB rest k

/-- The record kept when a second record with the same key arrives
(server.py line 112, strict greater-than). -/
def bestStep (b n : Rec) : Rec := if n.rssi > b.rssi then n else b

/-- Folding `bestStep` over the same-key records, starting from the current
dict entry (none if the key is new). -/
def foldOpt : Option Rec → List Rec → Option Rec
  | b, [] => b
  | none, n :: l => foldOpt (some n) l
  | some b, n :: l => foldOpt (some (bestStep b n)) l

def keysOf (m : List (String × Rec)) : List String := m.map Prod.fst

def PairsOk (m : List (String × Rec)) : Prop := ∀ p ∈ m, dedupKey p.2 = p.1

/-- The dict fold of `_dedup_by_ssid` over the input list. -/
def bestFold (m : List (String × Rec)) (nets : List Rec) : List (String × Rec) :=
  nets.foldl (fun m' net => updBest m' (dedupKey net) net) m

/-- Outcomes of each `re.search` that `_get_interface_info` runs over the
full `netsh wlan show interfaces` text (server.py lines 154-200): `none`
means that attribute's pattern did not match anywhere in the text.  Each
attribute is extracted independently of the others. -/
structure NetshFields where
  state : Option String := none
  ssid : Option String := none
  bssid : Option String := none
  channel : Option ℕ := none
  radio_type : Option String := none
  rx_rate : Option ℚ := none
  tx_rate : Option ℚ := none
  signal : Option ℕ := none
  auth : Option String := none
deriving DecidableEq

/-- The `info` dict of `_get_interface_info` (server.py lines 140-144). -/
structure InterfaceInfo where
  connected : Bool
  ssid : String
  bssid : String
  channel : ℕ
  band : String
  rx_rate : ℚ
  tx_rate : ℚ
  signal_percent : ℕ
  rssi : ℤ
  snr : ℤ
  noise : ℤ
  auth : String
  radio_type : String
deriving DecidableEq

/-- The default `info` dict (server.py lines 140-144), returned unchanged
when the command produced no output or raised before parsing. -/
def defaultInfo : InterfaceInfo :=
  { connected := false, ssid := "", bssid := "", channel := 0, band := ""
    rx_rate := 0, tx_rate := 0, signal_percent := 0, rssi := -100, snr := 0
    noise := -90, auth := "", radio_type := "" }

/-- Connection test of `_get_interface_info` (server.py line 155): the state
value must contain "connected" and must not contain "disconnected",
case-insensitively. -/
def stateConnected (st : Option String) : Bool :=
  match st with
  | some s =>
    strContains (lowerStr s) "connected" && !(strContains (lowerStr s) "disconnected")
  | none => false

/-- Field extraction of `_get_interface_info` (server.py lines 154-200).
Each attribute falls back to its default when its own pattern is absent.
The band is computed only inside the radio-type branch: from the fixed
substrings, then overridden to "5 GHz" when the already-parsed channel
exceeds 14 (lines 170-180).  The signal branch (lines 190-196) sets
percentage, rssi = int(pct/2 - 100), noise = -90 and snr = rssi - noise
together. -/
def interfaceInfo (f : NetshFields) : InterfaceInfo :=
  let channel := f.channel.getD 0
  let rssi : ℤ := match f.signal with
    | some p => pyInt ((p : ℚ) / 2 - 100)
    | none => -100
  { connected := stateConnected f.state
    ssid := f.ssid.getD ""
    bssid := f.bssid.getD ""
    channel := channel
    band :=
      match f.radio_type with
      | some rt =>
        let b := if strContains rt "802.11a" || strContains rt "802.11ac" ||
            strContains rt "802.11ax" || strContains rt "802.11be"
          then "5 GHz" else "2.4 GHz"
        if 14 < channel then "5 GHz" else b
      | none => ""
    rx_rate := f.rx_rate.getD 0
    tx_rate := f.tx_rate.getD 0
    signal_percent := f.signal.getD 0
    rssi := rssi
    snr := match f.signal with
      | some _ => rssi - (-90)
      | none => 0
    noise := -90
    auth := f.auth.getD ""
    radio_type := f.radio_type.getD "" }

/-- `_get_interface_info` (server.py lines 138-204): a command invocation
that raises (or returns empty output) yields the default dict with
`connected = false`; otherwise the fields are parsed from the text. -/
def getInterfaceInfo : PyResult NetshFields → InterfaceInfo
  | .ok f => interfaceInfo f
  | .exc _ => defaultInfo

/-- Outcome of one `ping` invocation as parsed by `_ping` (server.py lines
237-253): a matched `time[=<](\d+)ms` yields `float` of that integer, a
literal "time<1ms" yields 0.5, anything else (including a raised
exception) yields None. -/
inductive PingReply : Type
  | timeMs (n : ℕ)
  | timeBelow1
  | noReply
deriving DecidableEq

/-- The value `_ping` returns for a given parse outcome. -/
def pingValue : PingReply → Option ℚ
  | .timeMs n => some n
  | .timeBelow1 => some (1/2)
  | .noReply => none

/-- The counts dict of `_tcp_connections` (server.py lines 267-287). -/
structure TcpCounts where
  established : ℕ
  close_wait : ℕ
  time_wait : ℕ
  total : ℕ
deriving DecidableEq

/-- The external world of one diagnostics cycle: what each collaborator call
inside `_collect_diagnostics` would produce this cycle.  `iface` is the
interface-status command (an `exc` models a raised/empty invocation);
`gatewayResult` is what `_get_gateway` returns if consulted ("" covers all
of its failure paths, since that helper never raises); `pingRouter` and
`pingInternet` are what `_ping` would yield if invoked. -/
structure CycleEnv where
  iface : PyResult NetshFields
  gatewayResult : String
  pingRouter : PingReply
  pingInternet : PingReply
  dnsResult : Option ℚ
  tcp : TcpCounts
deriving DecidableEq

/-- The diag dict built by `_collect_diagnostics` (server.py lines 333-347):
the splat of `info` plus the cycle's measurements. -/
structure Diag where
  info : InterfaceInfo
  gateway : String
  router_ping : Option ℚ
  internet_ping : Option ℚ
  router_jitter : Option ℚ
  internet_jitter : Option ℚ
  router_loss : ℚ
  internet_loss : ℚ
  dns_lookup : Option ℚ
  tcp_established : ℕ
  tcp_close_wait : ℕ
  tcp_time_wait : ℕ
  tcp_total : ℕ
deriving DecidableEq

/-- The module-level mutable state carried between diagnostics cycles
(server.py lines 44-48): the two single-slot previous ping values and the
two maxlen-30 loss deques. -/
structure DiagState where
  prev_router_ping : Option ℚ
  prev_internet_ping : Option ℚ
  router_ping_results : List ℕ
  internet_ping_results : List ℕ
deriving DecidableEq

/-- State at process start (server.py lines 44-48). -/
def initDiagState : DiagState :=
  { prev_router_ping := none, prev_internet_ping := none
    router_ping_results := [], internet_ping_results := [] }

/-- `collections.deque(maxlen := cap).append`: at capacity the oldest
(leftmost) entry is discarded. -/
def dequeAppend (cap : ℕ) (l : List α) (a : α) : List α :=
  if l.length < cap then l ++ [a] else l.drop 1 ++ [a]

/-- The router probe value of a cycle (server.py lines 299, 302): the
gateway is resolved only when connected, and `_ping(gateway)` runs only
when the gateway string is non-empty. -/
def routerProbe (env : CycleEnv) : Option ℚ :=
  let info := getInterfaceInfo env.iface
  let gateway := if info.connected then env.gatewayResult else ""
  if gateway ≠ "" then pingValue env.pingRouter else none

/-- The internet probe value of a cycle (server.py line 303):
`_ping("1.1.1.1")` runs only when connected. -/
def internetProbe (env : CycleEnv) : Option ℚ :=
  if (getInterfaceInfo env.iface).connected then pingValue env.pingInternet else none

/-- The 1/0 success flag appended to the router loss window (line 317). -/
def routerBit (env : CycleEnv) : ℕ := if (routerProbe env).isSome then 1 else 0

/-- The 1/0 success flag appended to the internet loss window (line 318). -/
def internetBit (env : CycleEnv) : ℕ := if (internetProbe env).isSome then 1 else 0

/-- `_collect_diagnostics` (server.py lines 294-355), one cycle: returns the
updated module state and the diag dict.  Statement order follows the
source: jitter is computed from the old previous value, then the previous
value is overwritten unconditionally; the 1/0 outcome is appended to each
loss deque unconditionally; loss starts at 0 and is recomputed whenever the
deque is non-empty. -/
def collectDiagnostics (st : DiagState) (env : CycleEnv) : DiagState × Diag :=
  let info := getInterfaceInfo env.iface
  let gateway := if info.connected then env.gatewayResult else ""
  let router_ping := if gateway ≠ "" then pingValue env.pingRouter else none
  let internet_ping := if info.connected then pingValue env.pingInternet else none
  let router_jitter : Option ℚ :=
    match router_ping, st.prev_router_ping with
    | some c, some p => some (roundTenth |c - p|)
    | _, _ => none
  let internet_jitter : Option ℚ :=
    match internet_ping, st.prev_internet_ping with
    | some c, some p => some (roundTenth |c - p|)
    | _, _ => none
  let rw := dequeAppend 30 st.router_ping_results (if router_ping.isSome then 1 else 0)
  let iw := dequeAppend 30 st.internet_ping_results (if internet_ping.isSome then 1 else 0)
  let router_loss : ℚ :=
    if 0 < rw.length then roundTenth ((1 - (rw.sum : ℚ) / rw.length) * 100) else 0
  let internet_loss : ℚ :=
    if 0 < iw.length then roundTenth ((1 - (iw.sum : ℚ) / iw.length) * 100) else 0
  let dns := if info.connected then env.dnsResult else none
  (⟨router_ping, internet_ping, rw, iw⟩,
   { info := info, gateway := gateway
     router_ping := router_ping, internet_ping := internet_ping
     router_jitter := router_jitter, internet_jitter := internet_jitter
     router_loss := router_loss, internet_loss := internet_loss
     dns_lookup := dns
     tcp_established := env.tcp.established, tcp_close_wait := env.tcp.close_wait
     tcp_time_wait := env.tcp.time_wait, tcp_total := env.tcp.total })

/-- The diagnostics polling loop `_diag_poll_loop` run for finitely many
cycles (server.py lines 358-364): each cycle collects and publishes; the
loop body contains no exception handler. -/
def runDiag (st : DiagState) : List CycleEnv → DiagState × List Diag
  | [] => (st, [])
  | e :: es =>
    let p := collectDiagnostics st e
    let q := runDiag p.1 es
    (q.1, p.2 :: q.2)

def HISTORY_SIZE : ℕ := 60

/-- The tracked metric names (server.py lines 33-38). -/
def HISTORY_KEYS : List String :=
  ["signal_percent", "rssi", "snr", "noise", "rx_rate", "tx_rate",
   "router_ping", "internet_ping", "router_jitter", "internet_jitter",
   "router_loss", "internet_loss", "dns_lookup", "tcp_established",
   "tcp_close_wait"]

/-- `diag.get(key)` for the tracked keys (server.py line 352): every tracked
key is present in the diag dict; its value is a number or None. -/
def diagMetric (d : Diag) : String → Option ℚ := fun k =>
  if k = "signal_percent" then some d.info.signal_percent
  else if k = "rssi" then some d.info.rssi
  else if k = "snr" then some d.info.snr
  else if k = "noise" then some d.info.noise
  else if k = "rx_rate" then some d.info.rx_rate
  else if k = "tx_rate" then some d.info.tx_rate
  else if k = "router_ping" then d.router_ping
  else if k = "internet_ping" then d.internet_ping
  else if k = "router_jitter" then d.router_jitter
  else if k = "internet_jitter" then d.internet_jitter
  else if k = "router_loss" then some d.router_loss
  else if k = "internet_loss" then some d.internet_loss
  else if k = "dns_lookup" then d.dns_lookup
  else if k = "tcp_established" then some d.tcp_established
  else if k = "tcp_close_wait" then some d.tcp_close_wait
  else none

/-- The history update of one cycle (server.py lines 350-353): under the
lock, append `diag.get(key)` to every tracked key's maxlen-60 deque. -/
def updateHistories (h : String → List (Option ℚ)) (d : Diag) :
    String → List (Option ℚ) := fun k =>
  if k ∈ HISTORY_KEYS then dequeAppend HISTORY_SIZE (h k) (diagMetric d k) else h k

/-- The empty history tables created at import time (server.py lines 40-41). -/
def initHistories : String → List (Option ℚ) := fun _ => []

/-- The history tables after a sequence of published cycles. -/
def runHistories (h : String → List (Option ℚ)) (ds : List Diag) :
    String → List (Option ℚ) :=
  ds.foldl updateHistories h

/-- Observable content of the lock-protected diagnostics region (server.py
lines 24-26), abstracted by cycle index: `diagnostics` is the cycle whose
snapshot the `_diagnostics` dict currently holds (0 for the initial empty
dict) and `history` is the list of cycle indices whose metric values have
been appended to `_diagnostics_history` (capacity eviction is irrelevant to
cross-section consistency and omitted). -/
structure PubState where
  diagnostics : ℕ
  history : List ℕ
deriving DecidableEq

/-- The two lock-held critical sections a diagnostics publish consists of:
`appendHist n` is the history update inside `_collect_diagnostics`
(server.py lines 350-353) and `setCurrent n` is the swap of `_diagnostics`
in `_diag_poll_loop` (lines 362-363).  The lock is released between them. -/
inductive PubAct : Type
  | appendHist (cycle : ℕ)
  | setCurrent (cycle : ℕ)
deriving DecidableEq

def applyAct (s : PubState) : PubAct → PubState
  | .appendHist n => { s with history := s.history ++ [n] }
  | .setCurrent n => { s with diagnostics := n }

def runActs (s : PubState) (l : List PubAct) : PubState := l.foldl applyAct s

/-- The producer's critical sections for cycles 1..n, in program order:
cycle k first appends its history values, then swaps the current snapshot. -/
def publishActs : ℕ → List PubAct
  | 0 => []
  | n + 1 => publishActs n ++ [.appendHist (n + 1), .setCurrent (n + 1)]

/-- Shared state at process start: empty history, initial empty dict. -/
def initPub : PubState := ⟨0, []⟩

/-- A read (server.py lines 458-465) is cycle-consistent when the current
snapshot and every history entry come from the same set of completed
cycles: history holds exactly the cycles 1..c where c is the cycle of the
current snapshot. -/
def cycleConsistent (s : PubState) : Prop :=
  s.history = List.range' 1 s.diagnostics

/-- Spec-side jitter of cycle i (0-based): absent on the first cycle, else
the absolute difference of the probe values of cycles i and i-1 when both
are present. -/
def jitterSpec (f : CycleEnv → Option ℚ) (envs : List CycleEnv) : ℕ → Option ℚ
  | 0 => none
  | j + 1 =>
    match (envs[j + 1]?).bind f, (envs[j]?).bind f with
    | some c, some p => some |c - p|
    | _, _ => none

/-- Interface fields of a connected host (concrete test input). -/
def fieldsUp : NetshFields :=
  { state := some "connected", ssid := some "HomeNet", bssid := some "aa:bb",
    channel := some 11, radio_type := some "802.11n", signal := some 70 }

/-- Interface fields of a disconnected host that still reports a channel. -/
def fieldsDown : NetshFields :=
  { state := some "disconnected", channel := some 6 }

/-- Interface fields with channel 40 and no radio-type line. -/
def fieldsCh40NoRadio : NetshFields :=
  { state := some "connected", channel := some 40 }

/-- Interface fields with channel 40 and radio type 802.11n. -/
def fieldsCh40N : NetshFields :=
  { state := some "connected", channel := some 40, radio_type := some "802.11n" }

/-- A cycle on a connected host whose probes both reply in 10 ms. -/
def envUp : CycleEnv :=
  { iface := .ok fieldsUp, gatewayResult := "192.168.1.1",
    pingRouter := .timeMs 10, pingInternet := .timeMs 10,
    dnsResult := some 12, tcp := ⟨3, 1, 2, 6⟩ }

/-- A cycle on a connected host whose probes get no reply. -/
def envNoReply : CycleEnv :=
  { envUp with pingRouter := .noReply, pingInternet := .noReply }

/-- A cycle whose interface-status command raises. -/
def envExc : CycleEnv :=
  { envUp with iface := .exc "netsh raised" }

/-- A cycle on a disconnected host. -/
def envDown : CycleEnv :=
  { envUp with iface := .ok fieldsDown }

/-- A cycle whose probes reply in 12 ms. -/
def envPing12 : CycleEnv :=
  { envUp with pingRouter := .timeMs 12, pingInternet := .timeMs 12 }

/-- A cycle whose probes reply in 15 ms. -/
def envPing15 : CycleEnv :=
  { envUp with pingRouter := .timeMs 15, pingInternet := .timeMs 15 }

/-- First record of network "A" in the concrete dedup input. -/
def wit1 : Rec := { ssid := "A", bssid := "a1", rssi := -50, signal_percent := 70, channel := 1 }

/-- Concrete dedup input: two records of network "A" tie at rssi -50, one
record of network "B". -/
def witNets : List Rec :=
  [wit1, ⟨"A", "a2", -50, 80, 1⟩, ⟨"B", "b1", -60, 40, 6⟩]

/-- The record the concrete scan of the C9 witness produces. -/
def witRec : Rec :=
  { ssid := "A", bssid := "aa", rssi := -65, signal_percent := 70, channel := 0 }

/-- Ten diagnostics cycles whose probes alternate success and failure. -/
def altEnvs : List CycleEnv :=
  [envUp, envNoReply, envUp, envNoReply, envUp, envNoReply, envUp, envNoReply,
   envUp, envNoReply]

theorem ratFloor_eq_floor (q : ℚ) : ratFloor q = ⌊q⌋ := by
  rw [ratFloor, Int.fdiv_eq_ediv _ (by positivity)]
  rw [← Rat.floor_intCast_div_natCast]
  norm_num [Rat.num_div_den]

theorem pyInt_floor (q : ℚ) : pyInt q = if q < 0 then -⌊-q⌋ else ⌊q⌋ := by
  rw [pyInt, ratFloor_eq_floor, ratFloor_eq_floor]

example : parseWindows [.ssidHdr (some "A"), .bssidHdr (some "aa"), .signal (some 70)]
    = [⟨"A", "aa", -65, 70, 0⟩] := by with_unfolding_all decide

example : dedupBySsid [⟨"A", "a1", -70, 60, 1⟩, ⟨"A", "a2", -50, 100, 1⟩, ⟨"B", "b1", -80, 40, 6⟩]
    = [⟨"A", "a2", -50, 100, 1⟩, ⟨"B", "b1", -80, 40, 6⟩] := by with_unfolding_all decide

theorem foldOpt_nil (b : Option Rec) : foldOpt b [] = b := by
  cases b <;> rfl

theorem lookupB_updBest (m : List (String × Rec)) (k : String) (net : Rec)
    (k' : String) :
    lookupB (updBest m k net) k' =
      if k' = k then
        (match lookupB m k with
         | none => some net
         | some r => some (bestStep r net))
      else lookupB m k' := by
  induction m with
  | nil =>
    by_cases h : k' = k
    · subst h; simp [updBest, lookupB]
    · have hne : ¬ k = k' := fun hh => h hh.symm
      simp [updBest, lookupB, hne, h]
  | cons p rest ih =>
    obtain ⟨k0, r0⟩ := p
    by_cases h0 : k0 = k
    · subst h0
      by_cases hb : net.rssi > r0.rssi
      · by_cases h' : k' = k0
        · subst h'; simp [updBest, lookupB, hb, bestStep]
        · have hne : ¬ k0 = k' := fun hh => h' hh.symm
          simp [updBest, lookupB, hb, h', hne]
      · by_cases h' : k' = k0
        · subst h'; simp [updBest, lookupB, hb, bestStep]
        · have hne : ¬ k0 = k' := fun hh => h' hh.symm
          simp [updBest, lookupB, hb, h', hne]
    · by_cases h' : k' = k0
      · subst h'
        have hne : ¬ k' = k := fun hh => h0 (hh ▸ rfl)
        simp [updBest, lookupB, h0, hne]
      · by_cases hkk : k' = k
        · subst hkk
          simp only [updBest, if_neg h0, lookupB,
            if_neg (fun hh : k0 = k' => h' hh.symm), ih, if_pos rfl]
        · simp only [updBest, if_neg h0, lookupB,
            if_neg (fun hh : k0 = k' => h' hh.symm), ih, if_neg hkk]

theorem keysOf_updBest (m : List (String × Rec)) (k : String) (net : Rec) :
    keysOf (updBest m k net) =
      if k ∈ keysOf m then keysOf m else keysOf m ++ [k] := by
  induction m with
  | nil => simp [updBest, keysOf]
  | cons p rest ih =>
    obtain ⟨k0, r0⟩ := p
    by_cases h0 : k0 = k
    · subst h0
      by_cases hb : net.rssi > r0.rssi <;>
        simp [updBest, keysOf, hb, List.mem_cons]
    · have hne : ¬ k = k0 := fun h => h0 h.symm
      simp only [updBest, if_neg h0, keysOf, List.map_cons, List.mem_cons, hne,
        false_or]
      by_cases hm : k ∈ List.map Prod.fst rest
      · rw [if_pos hm]
        have h2 := ih
        rw [if_pos (show k ∈ keysOf rest from hm)] at h2
        simp only [keysOf] at h2
        rw [h2]
      · rw [if_neg hm]
        have h2 := ih
        rw [if_neg (show ¬ k ∈ keysOf rest from hm)] at h2
        simp only [keysOf] at h2
        rw [h2, List.cons_append]

theorem nodup_keys_updBest (m : List (String × Rec)) (k : String) (net : Rec)
    (h : (keysOf m).Nodup) : (keysOf (updBest m k net)).Nodup := by
  rw [keysOf_updBest]
  by_cases hm : k ∈ keysOf m
  · simpa [hm]
  · rw [if_neg hm, List.nodup_append]
    refine ⟨h, List.nodup_singleton k, ?_⟩
    intro a ha hb
    rw [List.mem_singleton] at hb
    exact hm (hb ▸ ha)

theorem pairsOk_updBest (m : List (String × Rec)) (net : Rec)
    (h : PairsOk m) : PairsOk (updBest m (dedupKey net) net) := by
  induction m with
  | nil =>
    intro p hp
    simp only [updBest, List.mem_singleton] at hp
    subst hp; rfl
  | cons q rest ih =>
    obtain ⟨k0, r0⟩ := q
    intro p hp
    simp only [updBest] at hp
    by_cases h0 : k0 = dedupKey net
    · rw [if_pos h0] at hp
      rcases List.mem_cons.mp hp with h1 | h1
      · by_cases hb : net.rssi > r0.rssi
        · rw [if_pos hb] at h1; subst h1; rfl
        · rw [if_neg hb] at h1; subst h1
          exact h (k0, r0) (List.mem_cons_self _ _)
      · exact h p (List.mem_cons_of_mem _ h1)
    · rw [if_neg h0] at hp
      rcases List.mem_cons.mp hp with h1 | h1
      · subst h1; exact h (k0, r0) (List.mem_cons_self _ _)
      · exact ih (fun q hq => h q (List.mem_cons_of_mem _ hq)) p h1

theorem bestFold_nil (m : List (String × Rec)) : bestFold m [] = m := rfl

theorem bestFold_cons (m : List (String × Rec)) (n : Rec) (nets : List Rec) :
    bestFold m (n :: nets) = bestFold (updBest m (dedupKey n) n) nets := rfl

theorem dedupBySsid_eq (nets : List Rec) :
    dedupBySsid nets = (bestFold [] nets).map Prod.snd := rfl

theorem lookupB_bestFold (nets : List Rec) :
    ∀ (m : List (String × Rec)) (k : String),
      lookupB (bestFold m nets) k =
        foldOpt (lookupB m k) (nets.filter (fun n => dedupKey n == k)) := by
  induction nets with
  | nil =>
    intro m k
    rw [bestFold_nil, List.filter_nil, foldOpt_nil]
  | cons n rest ih =>
    intro m k
    rw [bestFold_cons, ih]
    by_cases hk : dedupKey n = k
    · rw [List.filter_cons_of_pos (by simpa using hk)]
      subst hk
      rw [lookupB_updBest, if_pos rfl]
      cases h : lookupB m (dedupKey n) <;> simp [foldOpt]
    · rw [List.filter_cons_of_neg (by simpa using hk)]
      rw [lookupB_updBest, if_neg (fun h => hk h.symm)]

theorem nodup_keys_bestFold (nets : List Rec) :
    ∀ m, (keysOf m).Nodup → (keysOf (bestFold m nets)).Nodup := by
  induction nets with
  | nil => intro m h; exact h
  | cons n rest ih =>
    intro m h
    exact ih _ (nodup_keys_updBest m (dedupKey n) n h)

theorem pairsOk_bestFold (nets : List Rec) :
    ∀ m, PairsOk m → PairsOk (bestFold m nets) := by
  induction nets with
  | nil => intro m h; exact h
  | cons n rest ih =>
    intro m h
    exact ih _ (pairsOk_updBest m n h)

theorem lookupB_of_mem (m : List (String × Rec)) (k : String) (r : Rec)
    (hmem : (k, r) ∈ m) (hnd : (keysOf m).Nodup) : lookupB m k = some r := by
  induction m with
  | nil => cases hmem
  | cons p rest ih =>
    obtain ⟨k0, r0⟩ := p
    simp only [keysOf, List.map_cons, List.nodup_cons] at hnd
    rcases List.mem_cons.mp hmem with h1 | h1
    · rw [Prod.mk.injEq] at h1
      obtain ⟨hk, hr⟩ := h1
      subst hk; subst hr
      simp [lookupB]
    · by_cases h0 : k0 = k
      · subst h0
        exact absurd (List.mem_map.mpr ⟨(k0, r), h1, rfl⟩) hnd.1
      · simp only [lookupB, if_neg h0]
        exact ih h1 hnd.2

theorem mem_keys_iff_lookupB (m : List (String × Rec)) (k : String) :
    k ∈ keysOf m ↔ (lookupB m k).isSome := by
  induction m with
  | nil => simp [keysOf, lookupB]
  | cons p rest ih =>
    obtain ⟨k0, r0⟩ := p
    simp only [keysOf, List.map_cons, List.mem_cons]
    by_cases h : k0 = k
    · subst h; simp [lookupB]
    · have hne : ¬ k = k0 := fun hh => h hh.symm
      simp only [lookupB, if_neg h, hne, false_or]
      simpa [keysOf] using ih

theorem foldOpt_some_isSome (l : List Rec) :
    ∀ b, (foldOpt (some b) l).isSome := by
  induction l with
  | nil => intro b; rfl
  | cons n rest ih => intro b; simpa [foldOpt] using ih (bestStep b n)

theorem foldOpt_none_isSome_iff (l : List Rec) :
    (foldOpt none l).isSome ↔ l ≠ [] := by
  cases l with
  | nil => simp [foldOpt]
  | cons n rest => simpa [foldOpt] using foldOpt_some_isSome rest n

theorem foldOpt_split (l : List Rec) :
    ∀ (b₀ r : Rec), foldOpt (some b₀) l = some r →
      ∃ l₁ l₂, b₀ :: l = l₁ ++ r :: l₂ ∧ (∀ x ∈ l₁, x.rssi < r.rssi) ∧
        (∀ x ∈ b₀ :: l, x.rssi ≤ r.rssi) := by
  induction l with
  | nil =>
    intro b₀ r h
    injection h with h
    subst h
    exact ⟨[], [], rfl, by simp, by simp⟩
  | cons n rest ih =>
    intro b₀ r h
    simp only [foldOpt] at h
    obtain ⟨l₁, l₂, hsplit, hlt, hle⟩ := ih (bestStep b₀ n) r h
    by_cases hb : n.rssi > b₀.rssi
    · have hstep : bestStep b₀ n = n := by simp [bestStep, hb]
      rw [hstep] at hsplit hle
      refine ⟨b₀ :: l₁, l₂, by rw [List.cons_append, hsplit], ?_, ?_⟩
      · intro x hx
        rcases List.mem_cons.mp hx with h1 | h1
        · subst h1
          exact lt_of_lt_of_le hb (hle n (List.mem_cons_self _ _))
        · exact hlt x h1
      · intro x hx
        rcases List.mem_cons.mp hx with h1 | h1
        · subst h1
          exact le_of_lt (lt_of_lt_of_le hb (hle n (List.mem_cons_self _ _)))
        · exact hle x h1
    · have hstep : bestStep b₀ n = b₀ := by simp [bestStep, hb]
      rw [hstep] at hsplit hle
      cases l₁ with
      | nil =>
        simp only [List.nil_append] at hsplit
        injection hsplit with h1 h2
        subst h1
        refine ⟨[], n :: rest, rfl, by simp, ?_⟩
        intro x hx
        rcases List.mem_cons.mp hx with h1 | h1
        · subst h1; exact le_refl _
        · rcases List.mem_cons.mp h1 with h2' | h2'
          · subst h2'; exact le_of_not_gt hb
          · exact hle x (List.mem_cons_of_mem _ h2')
      | cons a l₁' =>
        simp only [List.cons_append] at hsplit
        injection hsplit with h1 h2
        subst h1
        have hb₀lt : b₀.rssi < r.rssi := hlt b₀ (List.mem_cons_self _ _)
        refine ⟨b₀ :: n :: l₁', l₂, ?_, ?_, ?_⟩
        · rw [h2]; simp [List.cons_append]
        · intro x hx
          rcases List.mem_cons.mp hx with h1 | h1
          · subst h1; exact hb₀lt
          · rcases List.mem_cons.mp h1 with h2' | h2'
            · subst h2'; exact lt_of_le_of_lt (le_of_not_gt hb) hb₀lt
            · exact hlt x (List.mem_cons_of_mem _ h2')
        · intro x hx
          rcases List.mem_cons.mp hx with h1 | h1
          · subst h1; exact le_of_lt hb₀lt
          · rcases List.mem_cons.mp h1 with h2' | h2'
            · subst h2'
              exact le_trans (le_of_not_gt hb) (le_of_lt hb₀lt)
            · exact hle x (List.mem_cons_of_mem _ h2')

theorem countP_nodup (l : List String) (k : String) (h : l.Nodup) :
    l.countP (fun k' => k' == k) = if k ∈ l then 1 else 0 := by
  induction l with
  | nil => simp
  | cons a rest ih =>
    rcases List.nodup_cons.mp h with ⟨ha, hrest⟩
    rw [List.countP_cons, ih hrest]
    by_cases hak : a = k
    · subst hak
      simp [ha, List.mem_cons]
    · have hka : ¬ k = a := fun h' => hak h'.symm
      simp [hka, hak, List.mem_cons]

theorem countP_map_snd (m : List (String × Rec)) (k : String) (h : PairsOk m) :
    (m.map Prod.snd).countP (fun r => dedupKey r == k)
      = (keysOf m).countP (fun k' => k' == k) := by
  induction m with
  | nil => rfl
  | cons p rest ih =>
    obtain ⟨k0, r0⟩ := p
    have hp : dedupKey r0 = k0 := h (k0, r0) (List.mem_cons_self _ _)
    have hrest := ih (fun q hq => h q (List.mem_cons_of_mem _ hq))
    simp only [List.map_cons, keysOf, List.countP_cons] at hrest ⊢
    rw [hp, hrest]

/-- C3: for every input sequence, `_dedup_by_ssid` outputs exactly one
record per distinct network identifier, and the kept record is one whose
rssi is maximal among the same-identifier inputs; since the comparison is
strict greater-than, ties keep the first record encountered (every record
before the kept one in the same-identifier input order is strictly
weaker). -/
theorem dedup_one_strongest_per_ssid (nets : List Rec) (k : String) :
    ((dedupBySsid nets).countP (fun r => dedupKey r == k)
        = if nets.any (fun n => dedupKey n == k) then 1 else 0)
    ∧ ∀ r ∈ dedupBySsid nets, ∃ l₁ l₂,
        nets.filter (fun n => dedupKey n == dedupKey r) = l₁ ++ r :: l₂
        ∧ (∀ x ∈ l₁, x.rssi < r.rssi)
        ∧ (∀ x ∈ nets.filter (fun n => dedupKey n == dedupKey r),
            x.rssi ≤ r.rssi) := by
  have hnd : (keysOf (bestFold [] nets)).Nodup :=
    nodup_keys_bestFold nets [] (by simp [keysOf])
  have hpo : PairsOk (bestFold [] nets) :=
    pairsOk_bestFold nets [] (by intro p hp; cases hp)
  constructor
  · rw [dedupBySsid_eq, countP_map_snd _ _ hpo, countP_nodup _ _ hnd]
    have h1 : k ∈ keysOf (bestFold [] nets) ↔
        (foldOpt none (nets.filter (fun n => dedupKey n == k))).isSome := by
      rw [mem_keys_iff_lookupB, lookupB_bestFold]
      exact Iff.rfl
    have h2 : (k ∈ keysOf (bestFold [] nets)) ↔
        (nets.any (fun n => dedupKey n == k) = true) := by
      rw [h1, foldOpt_none_isSome_iff, Ne, List.filter_eq_nil_iff,
        List.any_eq_true]
      simp [not_forall]
    exact if_congr h2 rfl rfl
  · intro r hr
    rw [dedupBySsid_eq] at hr
    obtain ⟨p, hmem, hsnd⟩ := List.mem_map.mp hr
    obtain ⟨k0, r0⟩ := p
    simp only at hsnd
    subst hsnd
    have hk0 : dedupKey r0 = k0 := hpo _ hmem
    have hlk : lookupB (bestFold [] nets) k0 = some r0 :=
      lookupB_of_mem _ _ _ hmem hnd
    rw [lookupB_bestFold] at hlk
    have hlk' : foldOpt none (nets.filter (fun n => dedupKey n == k0)) = some r0 := hlk
    rw [← hk0] at hlk'
    cases hfil : nets.filter (fun n => dedupKey n == dedupKey r0) with
    | nil =>
      rw [hfil] at hlk'
      cases hlk'
    | cons n l' =>
      rw [hfil] at hlk'
      have hsp := foldOpt_split l' n r0 (by simpa [foldOpt] using hlk')
      obtain ⟨l₁, l₂, hs, hlt, hle⟩ := hsp
      refine ⟨l₁, l₂, hs, hlt, ?_⟩
      intro x hx
      exact hle x hx

/-- Witness for C3 at a concrete input with an rssi tie on network "A". -/
theorem dedup_one_strongest_per_ssid_witness :
    ((dedupBySsid witNets).countP (fun r => dedupKey r == "A")
        = if witNets.any (fun n => dedupKey n == "A") then 1 else 0)
    ∧ (∃ l₁ l₂,
        witNets.filter (fun n => dedupKey n == dedupKey wit1)
          = l₁ ++ wit1 :: l₂
        ∧ (∀ x ∈ l₁, x.rssi < wit1.rssi)
        ∧ (∀ x ∈ witNets.filter (fun n => dedupKey n == dedupKey wit1),
            x.rssi ≤ wit1.rssi)) :=
  ⟨(dedup_one_strongest_per_ssid witNets "A").1,
   (dedup_one_strongest_per_ssid witNets "A").2 wit1
     (by with_unfolding_all decide)⟩

theorem parseWindowsAux_rssi (ls : List ScanLine) :
    ∀ (cs : String) (cur : Option Rec) (acc : List Rec),
      (∀ x ∈ acc, x.rssi = pyInt ((x.signal_percent : ℚ) / 2 - 100)) →
      (∀ b, cur = some b → b.rssi = pyInt ((b.signal_percent : ℚ) / 2 - 100)) →
      ∀ r ∈ parseWindowsAux cs cur acc ls,
        r.rssi = pyInt ((r.signal_percent : ℚ) / 2 - 100) := by
  have hnew : ∀ (s i : String), (⟨s, i, -100, 0, 0⟩ : Rec).rssi
      = pyInt (((⟨s, i, -100, 0, 0⟩ : Rec).signal_percent : ℚ) / 2 - 100) := by
    intro s i
    show (-100 : ℤ) = pyInt ((0 : ℚ) / 2 - 100)
    rw [pyInt_floor]
    norm_num
  induction ls with
  | nil =>
    intro cs cur acc hacc hcur r hr
    cases cur with
    | none => exact hacc r hr
    | some b =>
      simp only [parseWindowsAux] at hr
      by_cases hb : b.bssid ≠ ""
      · rw [if_pos hb] at hr
        rcases List.mem_append.mp hr with h | h
        · exact hacc r h
        · rw [List.mem_singleton] at h; subst h; exact hcur r rfl
      · rw [if_neg hb] at hr; exact hacc r hr
  | cons l rest ih =>
    intro cs cur acc hacc hcur r hr
    cases l with
    | ssidHdr name =>
      cases cur with
      | none =>
        simp only [parseWindowsAux] at hr
        refine ih (name.getD "Hidden") none acc hacc ?_ r hr
        intro b hb
        cases hb
      | some b =>
        simp only [parseWindowsAux] at hr
        by_cases hb : b.bssid ≠ ""
        · rw [if_pos hb] at hr
          refine ih (name.getD "Hidden") none (acc ++ [b]) ?_ ?_ r hr
          · intro x hx
            rcases List.mem_append.mp hx with h | h
            · exact hacc x h
            · rw [List.mem_singleton] at h; rw [h]; exact hcur b rfl
          · intro b' hb'
            cases hb'
        · rw [if_neg hb] at hr
          exact ih (name.getD "Hidden") (some b) acc hacc hcur r hr
    | bssidHdr id =>
      cases cur with
      | none =>
        simp only [parseWindowsAux] at hr
        refine ih cs (some ⟨cs, id.getD "", -100, 0, 0⟩) acc hacc ?_ r hr
        intro b' hb'
        injection hb' with hb'
        subst hb'
        exact hnew _ _
      | some b =>
        simp only [parseWindowsAux] at hr
        by_cases hb : b.bssid ≠ ""
        · rw [if_pos hb] at hr
          refine ih cs (some ⟨cs, id.getD "", -100, 0, 0⟩) (acc ++ [b]) ?_ ?_ r hr
          · intro x hx
            rcases List.mem_append.mp hx with h | h
            · exact hacc x h
            · rw [List.mem_singleton] at h; rw [h]; exact hcur b rfl
          · intro b' hb'
            injection hb' with hb'
            subst hb'
            exact hnew _ _
        · rw [if_neg hb] at hr
          refine ih cs (some ⟨cs, id.getD "", -100, 0, 0⟩) acc hacc ?_ r hr
          intro b' hb'
          injection hb' with hb'
          subst hb'
          exact hnew _ _
    | signal pct =>
      cases cur with
      | none =>
        simp only [parseWindowsAux] at hr
        exact ih cs none acc hacc hcur r hr
      | some b =>
        cases pct with
        | none =>
          simp only [parseWindowsAux] at hr
          exact ih cs (some b) acc hacc hcur r hr
        | some p =>
          simp only [parseWindowsAux] at hr
          refine ih cs _ acc hacc ?_ r hr
          intro b' hb'
          injection hb' with hb'
          subst hb'
          rfl
    | channel ch =>
      cases cur with
      | none =>
        simp only [parseWindowsAux] at hr
        exact ih cs none acc hacc hcur r hr
      | some b =>
        cases ch with
        | none =>
          simp only [parseWindowsAux] at hr
          exact ih cs (some b) acc hacc hcur r hr
        | some c =>
          simp only [parseWindowsAux] at hr
          refine ih cs _ acc hacc ?_ r hr
          intro b' hb'
          injection hb' with hb'
          subst hb'
          exact hcur b rfl
    | other =>
      simp only [parseWindowsAux] at hr
      exact ih cs cur acc hacc hcur r hr

theorem interfaceInfo_rssi (f : NetshFields) :
    (interfaceInfo f).rssi
      = pyInt (((interfaceInfo f).signal_percent : ℚ) / 2 - 100) := by
  cases hs : f.signal with
  | none =>
    simp only [interfaceInfo, hs, Option.getD]
    rw [pyInt_floor]
    norm_num
  | some p => simp [interfaceInfo, hs]

/-- C9: both the scan parser (server.py lines 86-91) and the interface
inspector (lines 190-196) derive the dBm value as int(percent/2 - 100);
in particular percent 70 gives -65 dBm. -/
theorem signal_percent_to_dbm :
    (∀ (ls : List ScanLine), ∀ r ∈ parseWindows ls,
        r.rssi = pyInt ((r.signal_percent : ℚ) / 2 - 100))
    ∧ (∀ f : NetshFields,
        (interfaceInfo f).rssi
          = pyInt (((interfaceInfo f).signal_percent : ℚ) / 2 - 100))
    ∧ pyInt ((70 : ℚ) / 2 - 100) = -65 := by
  refine ⟨?_, interfaceInfo_rssi, by with_unfolding_all decide⟩
  intro ls r hr
  exact parseWindowsAux_rssi ls "Hidden" none [] (by intro x hx; cases hx)
    (by intro b hb; cases hb) r hr

/-- Witness for C9 at a concrete scan with signal 70 percent. -/
theorem signal_percent_to_dbm_witness :
    witRec.rssi = pyInt ((witRec.signal_percent : ℚ) / 2 - 100) :=
  signal_percent_to_dbm.1
    [.ssidHdr (some "A"), .bssidHdr (some "aa"), .signal (some 70)]
    witRec (by with_unfolding_all decide)

/-- Counterexample to C7 as stated: an interface text with channel 40 but no
radio-type line yields band "" rather than "5 GHz" — the channel override
lives inside the radio-type branch (server.py lines 170-180), so with the
radio-type field missing no band is assigned at all. -/
theorem band_override_needs_radio_counterexample :
    (interfaceInfo fieldsCh40NoRadio).channel = 40
    ∧ (interfaceInfo fieldsCh40NoRadio).band ≠ "5 GHz"
    ∧ (interfaceInfo fieldsCh40NoRadio).band = "" := by
  with_unfolding_all decide

/-- C7 amended: whenever the radio-type field is present in the text, a
parsed channel above 14 forces band "5 GHz" regardless of the radio-type
value; when the radio-type field is missing, the band keeps its default
empty value even for channels above 14. -/
theorem band_channel_override (f : NetshFields) (rt : String)
    (hrt : f.radio_type = some rt) (hch : 14 < (interfaceInfo f).channel) :
    (interfaceInfo f).band = "5 GHz" := by
  simp only [interfaceInfo] at hch ⊢
  rw [hrt]
  simp only [if_pos hch]

/-- Witness for C7 amended at the spec's example: channel 40, radio type
802.11n (a 2.4 GHz-looking label) still classifies as 5 GHz. -/
theorem band_channel_override_witness :
    (interfaceInfo fieldsCh40N).band = "5 GHz" :=
  band_channel_override fieldsCh40N "802.11n" rfl (by with_unfolding_all decide)

/-- Counterexample to C8 as stated: a disconnected interface text that still
reports "Channel : 6" yields connected = false but channel 6 — not the
default 0 — because `_get_interface_info` extracts every attribute
independently of the state field (server.py lines 154-200). -/
theorem disconnected_defaults_counterexample :
    (interfaceInfo fieldsDown).connected = false
    ∧ (interfaceInfo fieldsDown).channel ≠ 0 := by
  with_unfolding_all decide

/-- C8 amended: when the state field does not establish a connected state,
the snapshot has connected = false and the diagnostics cycle skips gateway
resolution entirely (gateway = "", hence no router probe; no internet probe
and no DNS lookup either); the remaining snapshot fields are extracted
independently and hold their defaults only when their own patterns are
absent — in particular a text matching no field pattern yields the
all-default snapshot. -/
theorem disconnected_skips_gateway (st : DiagState) (env : CycleEnv)
    (f : NetshFields) (hif : env.iface = PyResult.ok f)
    (hst : stateConnected f.state = false) :
    (interfaceInfo f).connected = false
    ∧ (collectDiagnostics st env).2.gateway = ""
    ∧ (collectDiagnostics st env).2.router_ping = none
    ∧ (collectDiagnostics st env).2.internet_ping = none
    ∧ (collectDiagnostics st env).2.dns_lookup = none
    ∧ interfaceInfo {} = defaultInfo := by
  have hc : (interfaceInfo f).connected = false := by
    simp [interfaceInfo, hst]
  have hdef : interfaceInfo {} = defaultInfo := by with_unfolding_all decide
  refine ⟨hc, ?_, ?_, ?_, ?_, hdef⟩ <;>
    simp [collectDiagnostics, getInterfaceInfo, hif, hc]

/-- Witness for C8 amended at a concrete disconnected cycle. -/
theorem disconnected_skips_gateway_witness :
    (interfaceInfo fieldsDown).connected = false
    ∧ (collectDiagnostics initDiagState envDown).2.gateway = ""
    ∧ (collectDiagnostics initDiagState envDown).2.router_ping = none
    ∧ (collectDiagnostics initDiagState envDown).2.internet_ping = none
    ∧ (collectDiagnostics initDiagState envDown).2.dns_lookup = none
    ∧ interfaceInfo {} = defaultInfo :=
  disconnected_skips_gateway initDiagState envDown fieldsDown rfl
    (by with_unfolding_all decide)

theorem halfEvenRound_intCast (z : ℤ) : halfEvenRound (z : ℚ) = z := by
  rw [halfEvenRound, ratFloor_eq_floor, Int.floor_intCast]
  norm_num

theorem roundTenth_eq_self (q : ℚ) (z : ℤ) (h : q * 10 = z) : roundTenth q = q := by
  rw [roundTenth, h, halfEvenRound_intCast,
    div_eq_iff (by norm_num : (10 : ℚ) ≠ 0)]
  linarith

theorem halfEvenRound_nonneg (q : ℚ) (hq : 0 ≤ q) : 0 ≤ halfEvenRound q := by
  rw [halfEvenRound, ratFloor_eq_floor]
  have h0 : 0 ≤ ⌊q⌋ := Int.le_floor.mpr (by exact_mod_cast hq)
  split_ifs <;> omega

theorem halfEvenRound_le (q : ℚ) (b : ℤ) (hq : q ≤ b) : halfEvenRound q ≤ b := by
  rw [halfEvenRound, ratFloor_eq_floor]
  have hfl : ⌊q⌋ ≤ b := by
    have h := Int.floor_le_floor hq
    rwa [Int.floor_intCast] at h
  have hflq : (⌊q⌋ : ℚ) ≤ q := Int.floor_le q
  have hkey : (1 : ℚ)/2 ≤ q - ⌊q⌋ → ⌊q⌋ + 1 ≤ b := by
    intro hlt
    by_contra hc
    push_neg at hc
    have hfb : ⌊q⌋ = b := by omega
    rw [hfb] at hlt
    have hlt' : (b : ℚ) < q := by linarith
    exact absurd hq (not_le.mpr hlt')
  split_ifs with h1 h2 h3
  · exact hfl
  · exact hkey (le_of_lt h2)
  · exact hfl
  · exact hkey (not_lt.mp h1)

theorem roundTenth_loss_bounds (q : ℚ) (h0 : 0 ≤ q) (h1 : q ≤ 100) :
    0 ≤ roundTenth q ∧ roundTenth q ≤ 100 := by
  rw [roundTenth]
  constructor
  · have h := halfEvenRound_nonneg (q * 10) (by positivity)
    have h' : (0 : ℚ) ≤ (halfEvenRound (q * 10) : ℚ) := by exact_mod_cast h
    exact div_nonneg h' (by norm_num)
  · have h := halfEvenRound_le (q * 10) 1000 (by push_cast; linarith)
    rw [div_le_iff (by norm_num : (0 : ℚ) < 10)]
    have h' : ((halfEvenRound (q * 10) : ℤ) : ℚ) ≤ ((1000 : ℤ) : ℚ) := by
      exact_mod_cast h
    push_cast at h' ⊢
    linarith

theorem dequeAppend_foldl (cap : ℕ) (hcap : 0 < cap) (vs : List α) :
    vs.foldl (dequeAppend cap) [] = vs.drop (vs.length - cap) := by
  induction vs using List.reverseRecOn with
  | nil => simp
  | append_singleton l a ih =>
    rw [List.foldl_append, List.foldl_cons, List.foldl_nil, ih, dequeAppend]
    rw [List.length_drop]
    by_cases h : l.length < cap
    · rw [if_pos (by omega)]
      have h1 : l.length - cap = 0 := by omega
      have h2 : (l ++ [a]).length - cap = 0 := by
        rw [List.length_append, List.length_singleton]; omega
      rw [h1, h2, List.drop_zero, List.drop_zero]
    · rw [if_neg (by omega)]
      rw [List.drop_drop, List.drop_append_eq_append_drop]
      have h1 : (l ++ [a]).length - cap = 1 + (l.length - cap) := by
        rw [List.length_append, List.length_singleton]; omega
      have h2 : 1 + (l.length - cap) - l.length = 0 := by omega
      rw [h1, h2, List.drop_zero]
      have h3 : l.length - cap + 1 = 1 + (l.length - cap) := by omega
      rw [h3]

theorem runDiag_length (envs : List CycleEnv) :
    ∀ st, (runDiag st envs).2.length = envs.length := by
  induction envs with
  | nil => intro st; rfl
  | cons e es ih => intro st; simp [runDiag, ih]

theorem runDiag_append (l1 l2 : List CycleEnv) :
    ∀ st, runDiag st (l1 ++ l2)
      = ((runDiag (runDiag st l1).1 l2).1,
         (runDiag st l1).2 ++ (runDiag (runDiag st l1).1 l2).2) := by
  induction l1 with
  | nil => intro st; rfl
  | cons e es ih =>
    intro st
    have h := ih (collectDiagnostics st e).1
    show ((runDiag (collectDiagnostics st e).1 (es ++ l2)).1,
          (collectDiagnostics st e).2 :: (runDiag (collectDiagnostics st e).1 (es ++ l2)).2)
        = _
    rw [h]
    rfl

theorem runDiag_cons (st : DiagState) (e : CycleEnv) (es : List CycleEnv) :
    runDiag st (e :: es)
      = ((runDiag (collectDiagnostics st e).1 es).1,
         (collectDiagnostics st e).2 :: (runDiag (collectDiagnostics st e).1 es).2) := rfl

theorem collect_router_ping (st : DiagState) (env : CycleEnv) :
    (collectDiagnostics st env).2.router_ping = routerProbe env := rfl

theorem collect_internet_ping (st : DiagState) (env : CycleEnv) :
    (collectDiagnostics st env).2.internet_ping = internetProbe env := rfl

theorem collect_prev_router (st : DiagState) (env : CycleEnv) :
    (collectDiagnostics st env).1.prev_router_ping = routerProbe env := rfl

theorem collect_prev_internet (st : DiagState) (env : CycleEnv) :
    (collectDiagnostics st env).1.prev_internet_ping = internetProbe env := rfl

theorem collect_router_window (st : DiagState) (env : CycleEnv) :
    (collectDiagnostics st env).1.router_ping_results
      = dequeAppend 30 st.router_ping_results (routerBit env) := rfl

theorem collect_internet_window (st : DiagState) (env : CycleEnv) :
    (collectDiagnostics st env).1.internet_ping_results
      = dequeAppend 30 st.internet_ping_results (internetBit env) := rfl

theorem collect_router_jitter (st : DiagState) (env : CycleEnv) :
    (collectDiagnostics st env).2.router_jitter
      = match routerProbe env, st.prev_router_ping with
        | some c, some p => some (roundTenth |c - p|)
        | _, _ => none := rfl

theorem collect_internet_jitter (st : DiagState) (env : CycleEnv) :
    (collectDiagnostics st env).2.internet_jitter
      = match internetProbe env, st.prev_internet_ping with
        | some c, some p => some (roundTenth |c - p|)
        | _, _ => none := rfl

theorem collect_router_loss (st : DiagState) (env : CycleEnv) :
    (collectDiagnostics st env).2.router_loss
      = (if 0 < (dequeAppend 30 st.router_ping_results (routerBit env)).length
         then roundTenth
           ((1 - ((dequeAppend 30 st.router_ping_results (routerBit env)).sum : ℚ)
              / (dequeAppend 30 st.router_ping_results (routerBit env)).length) * 100)
         else 0) := rfl

theorem collect_internet_loss (st : DiagState) (env : CycleEnv) :
    (collectDiagnostics st env).2.internet_loss
      = (if 0 < (dequeAppend 30 st.internet_ping_results (internetBit env)).length
         then roundTenth
           ((1 - ((dequeAppend 30 st.internet_ping_results (internetBit env)).sum : ℚ)
              / (dequeAppend 30 st.internet_ping_results (internetBit env)).length) * 100)
         else 0) := rfl

theorem runDiag_router_window (envs : List CycleEnv) :
    ∀ st, (runDiag st envs).1.router_ping_results
      = (envs.map routerBit).foldl (dequeAppend 30) st.router_ping_results := by
  induction envs with
  | nil => intro st; rfl
  | cons e es ih =>
    intro st
    show (runDiag (collectDiagnostics st e).1 es).1.router_ping_results = _
    rw [ih, List.map_cons, List.foldl_cons, collect_router_window]

theorem runDiag_internet_window (envs : List CycleEnv) :
    ∀ st, (runDiag st envs).1.internet_ping_results
      = (envs.map internetBit).foldl (dequeAppend 30) st.internet_ping_results := by
  induction envs with
  | nil => intro st; rfl
  | cons e es ih =>
    intro st
    show (runDiag (collectDiagnostics st e).1 es).1.internet_ping_results = _
    rw [ih, List.map_cons, List.foldl_cons, collect_internet_window]

theorem runDiag_prev_router (envs : List CycleEnv) :
    ∀ st, (runDiag st envs).1.prev_router_ping
      = (match envs.getLast? with
         | none => st.prev_router_ping
         | some e => routerProbe e) := by
  induction envs with
  | nil => intro st; rfl
  | cons e es ih =>
    intro st
    show (runDiag (collectDiagnostics st e).1 es).1.prev_router_ping = _
    rw [ih]
    cases es with
    | nil => exact collect_prev_router st e
    | cons e2 es2 =>
      rw [List.getLast?_cons_cons]
      cases h : (e2 :: es2).getLast? with
      | none => simp [List.getLast?] at h
      | some e' => rfl

theorem runDiag_prev_internet (envs : List CycleEnv) :
    ∀ st, (runDiag st envs).1.prev_internet_ping
      = (match envs.getLast? with
         | none => st.prev_internet_ping
         | some e => internetProbe e) := by
  induction envs with
  | nil => intro st; rfl
  | cons e es ih =>
    intro st
    show (runDiag (collectDiagnostics st e).1 es).1.prev_internet_ping = _
    rw [ih]
    cases es with
    | nil => exact collect_prev_internet st e
    | cons e2 es2 =>
      rw [List.getLast?_cons_cons]
      cases h : (e2 :: es2).getLast? with
      | none => simp [List.getLast?] at h
      | some e' => rfl

theorem runDiag_get (envs : List CycleEnv) :
    ∀ (st : DiagState) (i : ℕ),
      (runDiag st envs).2[i]?
        = (envs[i]?).map
            (fun e => (collectDiagnostics (runDiag st (envs.take i)).1 e).2) := by
  induction envs with
  | nil => intro st i; simp [runDiag]
  | cons e es ih =>
    intro st i
    cases i with
    | zero =>
      show ((collectDiagnostics st e).2
            :: (runDiag (collectDiagnostics st e).1 es).2)[0]?
          = ((e :: es)[0]?).map
              (fun e' => (collectDiagnostics (runDiag st ((e :: es).take 0)).1 e').2)
      rw [List.getElem?_cons_zero, List.getElem?_cons_zero, Option.map_some']
      rfl
    | succ j =>
      have h1 : (runDiag st (e :: es)).2[j + 1]?
          = (runDiag (collectDiagnostics st e).1 es).2[j]? := by
        rw [runDiag_cons]
        exact List.getElem?_cons_succ
      have h2 : (e :: es)[j + 1]? = es[j]? := List.getElem?_cons_succ
      have h3 : (e :: es).take (j + 1) = e :: es.take j := rfl
      have h4 : (runDiag st (e :: es.take j)).1
          = (runDiag (collectDiagnostics st e).1 (es.take j)).1 := rfl
      rw [h1, ih, h2, h3, h4]

theorem sum_map_routerBit (l : List CycleEnv) :
    (l.map routerBit).sum = l.countP (fun e => (routerProbe e).isSome) := by
  induction l with
  | nil => rfl
  | cons e es ih =>
    rw [List.map_cons, List.sum_cons, List.countP_cons, ih, routerBit]
    by_cases h : (routerProbe e).isSome <;> simp [h, Nat.add_comm]

theorem sum_map_internetBit (l : List CycleEnv) :
    (l.map internetBit).sum = l.countP (fun e => (internetProbe e).isSome) := by
  induction l with
  | nil => rfl
  | cons e es ih =>
    rw [List.map_cons, List.sum_cons, List.countP_cons, ih, internetBit]
    by_cases h : (internetProbe e).isSome <;> simp [h, Nat.add_comm]

theorem window_last (vs : List ℕ) (a : ℕ) :
    dequeAppend 30 (vs.foldl (dequeAppend 30) []) a
      = (vs ++ [a]).drop ((vs ++ [a]).length - 30) := by
  have h := dequeAppend_foldl 30 (by norm_num) (vs ++ [a])
  rw [List.foldl_append, List.foldl_cons, List.foldl_nil] at h
  exact h

theorem runDiag_concat_last (st : DiagState) (l : List CycleEnv) (e : CycleEnv) :
    (runDiag st (l ++ [e])).2.getLast?
      = some (collectDiagnostics (runDiag st l).1 e).2 := by
  rw [runDiag_append]
  show ((runDiag st l).2 ++ (runDiag (runDiag st l).1 [e]).2).getLast? = _
  have h : (runDiag (runDiag st l).1 [e]).2
      = [(collectDiagnostics (runDiag st l).1 e).2] := rfl
  rw [h, List.getLast?_concat]

/-- C4 amended: after any non-empty sequence of diagnostics cycles, the
reported loss percentage for each target equals 100 × (1 − successes /
attempts), rounded half-to-even to one decimal place, over the most recent
window of at most 30 probe attempts (oldest attempts evicted first once
the window is full); an attempt counts as a success exactly when a
round-trip time was obtained. -/
theorem loss_window_formula (envs : List CycleEnv) (h : envs ≠ []) :
    ((runDiag initDiagState envs).2.getLast?).map Diag.router_loss
      = some (roundTenth (100 * (1 -
          ((envs.drop (envs.length - 30)).countP
              (fun e => (routerProbe e).isSome) : ℚ)
            / ((min envs.length 30 : ℕ) : ℚ))))
    ∧ ((runDiag initDiagState envs).2.getLast?).map Diag.internet_loss
      = some (roundTenth (100 * (1 -
          ((envs.drop (envs.length - 30)).countP
              (fun e => (internetProbe e).isSome) : ℚ)
            / ((min envs.length 30 : ℕ) : ℚ)))) := by
  obtain ⟨l, e, rfl⟩ : ∃ l e, envs = l ++ [e] := by
    rcases List.eq_nil_or_concat envs with h' | ⟨l, e, h'⟩
    · exact absurd h' h
    · exact ⟨l, e, by rw [h', List.concat_eq_append]⟩
  have hL : (l ++ [e]).length = l.length + 1 := by simp
  have hpos : 0 < min (l ++ [e]).length 30 := by omega
  rw [runDiag_concat_last]
  have hwr : dequeAppend 30 ((runDiag initDiagState l).1.router_ping_results)
        (routerBit e)
      = ((l ++ [e]).drop ((l ++ [e]).length - 30)).map routerBit := by
    rw [runDiag_router_window]
    rw [show initDiagState.router_ping_results = [] from rfl]
    rw [window_last]
    have hmap : List.map routerBit l ++ [routerBit e]
        = List.map routerBit (l ++ [e]) := by
      rw [List.map_append]; rfl
    rw [hmap, List.length_map, List.map_drop]
  have hwi : dequeAppend 30 ((runDiag initDiagState l).1.internet_ping_results)
        (internetBit e)
      = ((l ++ [e]).drop ((l ++ [e]).length - 30)).map internetBit := by
    rw [runDiag_internet_window]
    rw [show initDiagState.internet_ping_results = [] from rfl]
    rw [window_last]
    have hmap : List.map internetBit l ++ [internetBit e]
        = List.map internetBit (l ++ [e]) := by
      rw [List.map_append]; rfl
    rw [hmap, List.length_map, List.map_drop]
  have hlen : ∀ f : CycleEnv → ℕ,
      (((l ++ [e]).drop ((l ++ [e]).length - 30)).map f).length
        = min (l ++ [e]).length 30 := by
    intro f
    rw [List.length_map, List.length_drop]
    omega
  constructor
  · rw [Option.map_some']
    congr 1
    rw [collect_router_loss, hwr, hlen routerBit, if_pos hpos,
      sum_map_routerBit]
    rw [mul_comm]
  · rw [Option.map_some']
    congr 1
    rw [collect_internet_loss, hwi, hlen internetBit, if_pos hpos,
      sum_map_internetBit]
    rw [mul_comm]

/-- Counterexample to C4 as stated: three attempts with one success give a
reported loss of 66.7 (the code rounds to one decimal), which is not
100 × (1 − 1/3) = 66.666... . -/
theorem loss_rounding_counterexample :
    ((runDiag initDiagState [envUp, envNoReply, envNoReply]).2.getLast?).map
        Diag.router_loss = some (667/10)
    ∧ (667/10 : ℚ) ≠ 100 * (1 - 1/3) := by
  constructor
  · with_unfolding_all decide
  · with_unfolding_all decide

/-- Witness for C4 amended at the spec's example: ten attempts alternating
success/failure (5 successes) yield loss 50.0. -/
theorem loss_window_formula_witness :
    (((runDiag initDiagState altEnvs).2.getLast?).map Diag.router_loss
      = some (roundTenth (100 * (1 -
          ((altEnvs.drop (altEnvs.length - 30)).countP
              (fun e => (routerProbe e).isSome) : ℚ)
            / ((min altEnvs.length 30 : ℕ) : ℚ)))))
    ∧ ((runDiag initDiagState altEnvs).2.getLast?).map Diag.router_loss
        = some 50 :=
  ⟨(loss_window_formula altEnvs (by with_unfolding_all decide)).1,
   by with_unfolding_all decide⟩

theorem mem_dequeAppend (cap : ℕ) (l : List α) (a x : α)
    (h : x ∈ dequeAppend cap l a) : x ∈ l ∨ x = a := by
  rw [dequeAppend] at h
  split_ifs at h <;> rcases List.mem_append.mp h with h1 | h1
  · exact Or.inl h1
  · exact Or.inr (List.mem_singleton.mp h1)
  · exact Or.inl (List.mem_of_mem_drop h1)
  · exact Or.inr (List.mem_singleton.mp h1)

theorem dequeAppend_length_pos (cap : ℕ) (l : List α) (a : α) :
    0 < (dequeAppend cap l a).length := by
  rw [dequeAppend]
  split_ifs <;> simp

theorem sum_le_length_of_le_one (l : List ℕ) (h : ∀ x ∈ l, x ≤ 1) :
    l.sum ≤ l.length := by
  induction l with
  | nil => simp
  | cons a rest ih =>
    rw [List.sum_cons, List.length_cons]
    have h1 := h a (List.mem_cons_self _ _)
    have h2 := ih (fun x hx => h x (List.mem_cons_of_mem _ hx))
    omega

theorem bit_le_one (env : CycleEnv) : routerBit env ≤ 1 ∧ internetBit env ≤ 1 := by
  rw [routerBit, internetBit]
  constructor <;> split_ifs <;> omega

theorem loss_value_bounds (w : List ℕ) (hw : ∀ x ∈ w, x ≤ 1) :
    0 ≤ (if 0 < w.length
          then roundTenth ((1 - (w.sum : ℚ) / w.length) * 100) else 0)
    ∧ (if 0 < w.length
        then roundTenth ((1 - (w.sum : ℚ) / w.length) * 100) else 0) ≤ 100 := by
  split_ifs with h
  · have hsl : w.sum ≤ w.length := sum_le_length_of_le_one w hw
    have hlen : (0 : ℚ) < w.length := by exact_mod_cast h
    have h1 : (w.sum : ℚ) / w.length ≤ 1 := by
      rw [div_le_one hlen]; exact_mod_cast hsl
    have h2 : (0 : ℚ) ≤ (w.sum : ℚ) / w.length := by positivity
    exact roundTenth_loss_bounds _ (by linarith) (by linarith)
  · norm_num

theorem collect_loss_bounds (st : DiagState) (env : CycleEnv)
    (hr : ∀ x ∈ st.router_ping_results, x ≤ 1)
    (hi : ∀ x ∈ st.internet_ping_results, x ≤ 1) :
    0 ≤ (collectDiagnostics st env).2.router_loss
    ∧ (collectDiagnostics st env).2.router_loss ≤ 100
    ∧ 0 ≤ (collectDiagnostics st env).2.internet_loss
    ∧ (collectDiagnostics st env).2.internet_loss ≤ 100 := by
  have hwr : ∀ x ∈ dequeAppend 30 st.router_ping_results (routerBit env), x ≤ 1 := by
    intro x hx
    rcases mem_dequeAppend 30 _ _ x hx with h | h
    · exact hr x h
    · rw [h]; exact (bit_le_one env).1
  have hwi : ∀ x ∈ dequeAppend 30 st.internet_ping_results (internetBit env), x ≤ 1 := by
    intro x hx
    rcases mem_dequeAppend 30 _ _ x hx with h | h
    · exact hi x h
    · rw [h]; exact (bit_le_one env).2
  rw [collect_router_loss, collect_internet_loss]
  exact ⟨(loss_value_bounds _ hwr).1, (loss_value_bounds _ hwr).2,
    (loss_value_bounds _ hwi).1, (loss_value_bounds _ hwi).2⟩

theorem runDiag_loss_bounds (envs : List CycleEnv) :
    ∀ st, (∀ x ∈ st.router_ping_results, x ≤ 1) →
      (∀ x ∈ st.internet_ping_results, x ≤ 1) →
      ∀ d ∈ (runDiag st envs).2,
        0 ≤ d.router_loss ∧ d.router_loss ≤ 100
        ∧ 0 ≤ d.internet_loss ∧ d.internet_loss ≤ 100 := by
  induction envs with
  | nil => intro st _ _ d hd; cases hd
  | cons e es ih =>
    intro st hr hi d hd
    rw [runDiag_cons] at hd
    rcases List.mem_cons.mp hd with h1 | h1
    · subst h1
      exact collect_loss_bounds st e hr hi
    · have hr' : ∀ x ∈ (collectDiagnostics st e).1.router_ping_results, x ≤ 1 := by
        rw [collect_router_window]
        intro x hx
        rcases mem_dequeAppend 30 _ _ x hx with h | h
        · exact hr x h
        · rw [h]; exact (bit_le_one e).1
      have hi' : ∀ x ∈ (collectDiagnostics st e).1.internet_ping_results, x ≤ 1 := by
        rw [collect_internet_window]
        intro x hx
        rcases mem_dequeAppend 30 _ _ x hx with h | h
        · exact hi x h
        · rw [h]; exact (bit_le_one e).2
      exact ih _ hr' hi' d h1

theorem routerProbe_disconnected (env : CycleEnv)
    (hc : (getInterfaceInfo env.iface).connected = false) :
    routerProbe env = none := by
  simp [routerProbe, hc]

theorem internetProbe_disconnected (env : CycleEnv)
    (hc : (getInterfaceInfo env.iface).connected = false) :
    internetProbe env = none := by
  simp [internetProbe, hc]

theorem routerProbe_no_gateway (env : CycleEnv)
    (h : (getInterfaceInfo env.iface).connected = false ∨ env.gatewayResult = "") :
    routerProbe env = none := by
  rcases h with h | h
  · exact routerProbe_disconnected env h
  · simp [routerProbe, h]

theorem loss_all_zero (w : List ℕ) (hw : ∀ x ∈ w, x = 0) :
    roundTenth ((1 - (w.sum : ℚ) / w.length) * 100) = 100 := by
  have hsum : w.sum = 0 := List.sum_eq_zero hw
  rw [hsum, Nat.cast_zero, zero_div]
  have h100 : (1 - (0 : ℚ)) * 100 = 100 := by norm_num
  rw [h100]
  exact roundTenth_eq_self 100 1000 (by norm_num)

theorem runDiag_loss_disconnected (envs : List CycleEnv) :
    ∀ st, (∀ x ∈ st.router_ping_results, x = 0) →
      (∀ x ∈ st.internet_ping_results, x = 0) →
      (∀ e ∈ envs, (getInterfaceInfo e.iface).connected = false) →
      ∀ d ∈ (runDiag st envs).2,
        d.router_loss = 100 ∧ d.internet_loss = 100 := by
  induction envs with
  | nil => intro st _ _ _ d hd; cases hd
  | cons e es ih =>
    intro st hr hi hdis d hd
    have hce : (getInterfaceInfo e.iface).connected = false :=
      hdis e (List.mem_cons_self _ _)
    have hrbit : routerBit e = 0 := by
      rw [routerBit, routerProbe_disconnected e hce]; rfl
    have hibit : internetBit e = 0 := by
      rw [internetBit, internetProbe_disconnected e hce]; rfl
    have hr' : ∀ x ∈ dequeAppend 30 st.router_ping_results (routerBit e), x = 0 := by
      intro x hx
      rcases mem_dequeAppend 30 _ _ x hx with h | h
      · exact hr x h
      · rw [h, hrbit]
    have hi' : ∀ x ∈ dequeAppend 30 st.internet_ping_results (internetBit e), x = 0 := by
      intro x hx
      rcases mem_dequeAppend 30 _ _ x hx with h | h
      · exact hi x h
      · rw [h, hibit]
    rw [runDiag_cons] at hd
    rcases List.mem_cons.mp hd with h1 | h1
    · subst h1
      constructor
      · rw [collect_router_loss, if_pos (dequeAppend_length_pos _ _ _)]
        exact loss_all_zero _ hr'
      · rw [collect_internet_loss, if_pos (dequeAppend_length_pos _ _ _)]
        exact loss_all_zero _ hi'
    · exact ih _ (fun x hx => hr' x (by rwa [collect_router_window] at hx))
        (fun x hx => hi' x (by rwa [collect_internet_window] at hx))
        (fun e' he' => hdis e' (List.mem_cons_of_mem _ he')) d h1

/-- C10: every diagnostics cycle appends exactly one 1/0 outcome to each of
the two 30-entry loss windows — after N cycles each window has length
min(N, 30) — and a cycle with a disconnected interface or an unknown
gateway is recorded as a failed attempt (0); consequently both loss fields
of every published snapshot are defined rationals between 0 and 100 (never
absent), and a host disconnected on every cycle reports loss 100 for both
targets from the first cycle onward. -/
theorem loss_always_defined :
    (∀ envs : List CycleEnv,
        (runDiag initDiagState envs).1.router_ping_results.length
            = min envs.length 30
        ∧ (runDiag initDiagState envs).1.internet_ping_results.length
            = min envs.length 30)
    ∧ (∀ (st : DiagState) (env : CycleEnv),
        (getInterfaceInfo env.iface).connected = false ∨ env.gatewayResult = "" →
        (collectDiagnostics st env).1.router_ping_results
          = dequeAppend 30 st.router_ping_results 0)
    ∧ (∀ envs : List CycleEnv, ∀ d ∈ (runDiag initDiagState envs).2,
        0 ≤ d.router_loss ∧ d.router_loss ≤ 100
        ∧ 0 ≤ d.internet_loss ∧ d.internet_loss ≤ 100)
    ∧ (∀ envs : List CycleEnv,
        (∀ e ∈ envs, (getInterfaceInfo e.iface).connected = false) →
        ∀ d ∈ (runDiag initDiagState envs).2,
          d.router_loss = 100 ∧ d.internet_loss = 100) := by
  refine ⟨?_, ?_, ?_, ?_⟩
  · intro envs
    constructor
    · rw [runDiag_router_window,
        show initDiagState.router_ping_results = [] from rfl,
        dequeAppend_foldl 30 (by norm_num), List.length_drop, List.length_map]
      omega
    · rw [runDiag_internet_window,
        show initDiagState.internet_ping_results = [] from rfl,
        dequeAppend_foldl 30 (by norm_num), List.length_drop, List.length_map]
      omega
  · intro st env h
    rw [collect_router_window, routerBit, routerProbe_no_gateway env h]
    rfl
  · intro envs
    exact runDiag_loss_bounds envs initDiagState
      (by intro x hx; cases hx) (by intro x hx; cases hx)
  · intro envs hdis
    exact runDiag_loss_disconnected envs initDiagState
      (by intro x hx; cases hx) (by intro x hx; cases hx) hdis

/-- Witness for C10: a disconnected cycle appends a failed attempt, and a
persistently disconnected host reports loss 100 for both targets. -/
theorem loss_always_defined_witness :
    (collectDiagnostics initDiagState envDown).1.router_ping_results
        = dequeAppend 30 initDiagState.router_ping_results 0
    ∧ (∀ d ∈ (runDiag initDiagState [envDown]).2,
        d.router_loss = 100 ∧ d.internet_loss = 100) :=
  ⟨loss_always_defined.2.1 initDiagState envDown
      (Or.inl (by with_unfolding_all decide)),
   loss_always_defined.2.2.2 [envDown]
      (by
        intro e he
        rw [List.mem_singleton] at he
        subst he
        with_unfolding_all decide)⟩

theorem probe_halfInt (env : CycleEnv) :
    (∀ q, routerProbe env = some q → ∃ k : ℕ, q = (k : ℚ) / 2)
    ∧ (∀ q, internetProbe env = some q → ∃ k : ℕ, q = (k : ℚ) / 2) := by
  have hping : ∀ q, ∀ r : PingReply, pingValue r = some q → ∃ k : ℕ, q = (k : ℚ) / 2 := by
    intro q r hq
    cases r with
    | timeMs n =>
      simp only [pingValue] at hq
      injection hq with hq
      exact ⟨2 * n, by rw [← hq]; push_cast; ring⟩
    | timeBelow1 =>
      simp only [pingValue] at hq
      injection hq with hq
      exact ⟨1, by rw [← hq]; norm_num⟩
    | noReply => cases hq
  constructor
  · intro q hq
    simp only [routerProbe] at hq
    split_ifs at hq
    all_goals first
      | exact hping q env.pingRouter hq
      | cases hq
  · intro q hq
    simp only [internetProbe] at hq
    split_ifs at hq
    all_goals first
      | exact hping q env.pingInternet hq
      | cases hq

theorem roundTenth_half_diff (k m : ℕ) :
    roundTenth |(k : ℚ) / 2 - (m : ℚ) / 2| = |(k : ℚ) / 2 - (m : ℚ) / 2| := by
  apply roundTenth_eq_self _ (5 * |(k : ℤ) - (m : ℤ)|)
  have h1 : (k : ℚ) / 2 - (m : ℚ) / 2 = (((k : ℤ) - (m : ℤ) : ℤ) : ℚ) / 2 := by
    push_cast; ring
  rw [h1, abs_div, abs_of_pos (by norm_num : (0 : ℚ) < 2)]
  push_cast
  ring

theorem runDiag_take_prev (envs : List CycleEnv) (j : ℕ) (e : CycleEnv)
    (hj : envs[j]? = some e) :
    (runDiag initDiagState (envs.take (j + 1))).1.prev_router_ping = routerProbe e
    ∧ (runDiag initDiagState (envs.take (j + 1))).1.prev_internet_ping
        = internetProbe e := by
  have ht : envs.take (j + 1) = envs.take j ++ [e] := by
    rw [List.take_succ, hj]
    rfl
  rw [ht]
  constructor
  · rw [runDiag_prev_router, List.getLast?_concat]
  · rw [runDiag_prev_internet, List.getLast?_concat]

theorem jitterSpec_succ (f : CycleEnv → Option ℚ) (envs : List CycleEnv) (j : ℕ)
    (e e' : CycleEnv) (he : envs[j + 1]? = some e) (he' : envs[j]? = some e') :
    jitterSpec f envs (j + 1)
      = match f e, f e' with
        | some c, some p => some |c - p|
        | _, _ => none := by
  simp only [jitterSpec]
  rw [he, he']
  rfl

/-- C5: the jitter of every diagnostics cycle is exactly the absolute
difference between that cycle's round-trip time and the immediately
preceding cycle's round-trip time for the same target, absent whenever
either of the two consecutive probe values is absent or the cycle is the
first one ever (regardless of probe outcome); the single-slot previous
value is overwritten unconditionally every cycle, even with an absent
value. -/
theorem jitter_consecutive_cycles (envs : List CycleEnv) :
    (∀ (i : ℕ) (d : Diag), (runDiag initDiagState envs).2[i]? = some d →
        d.router_jitter = jitterSpec routerProbe envs i
        ∧ d.internet_jitter = jitterSpec internetProbe envs i)
    ∧ (runDiag initDiagState envs).1.prev_router_ping
        = envs.getLast?.bind routerProbe
    ∧ (runDiag initDiagState envs).1.prev_internet_ping
        = envs.getLast?.bind internetProbe := by
  refine ⟨?_, ?_, ?_⟩
  · intro i d hd
    rw [runDiag_get] at hd
    cases he : envs[i]? with
    | none => rw [he] at hd; cases hd
    | some e =>
      rw [he, Option.map_some'] at hd
      injection hd with hd
      subst hd
      cases i with
      | zero =>
        constructor
        · rw [collect_router_jitter]
          cases hc : routerProbe e <;> rfl
        · rw [collect_internet_jitter]
          cases hc : internetProbe e <;> rfl
      | succ j =>
        have hlt : j + 1 < envs.length := by
          by_contra hc
          push_neg at hc
          rw [List.getElem?_eq_none hc] at he
          cases he
        obtain ⟨e', he'⟩ : ∃ e', envs[j]? = some e' := by
          cases he2 : envs[j]? with
          | none =>
            rw [List.getElem?_eq_none_iff] at he2
            omega
          | some x => exact ⟨x, rfl⟩
        constructor
        · rw [collect_router_jitter, (runDiag_take_prev envs j e' he').1,
            jitterSpec_succ routerProbe envs j e e' he he']
          cases hc : routerProbe e with
          | none => rfl
          | some c =>
            cases hp : routerProbe e' with
            | none => rfl
            | some p =>
              obtain ⟨k, hk⟩ := (probe_halfInt e).1 c hc
              obtain ⟨m, hm⟩ := (probe_halfInt e').1 p hp
              subst hk
              subst hm
              show some (roundTenth |(k : ℚ) / 2 - (m : ℚ) / 2|)
                  = some |(k : ℚ) / 2 - (m : ℚ) / 2|
              rw [roundTenth_half_diff]
        · rw [collect_internet_jitter, (runDiag_take_prev envs j e' he').2,
            jitterSpec_succ internetProbe envs j e e' he he']
          cases hc : internetProbe e with
          | none => rfl
          | some c =>
            cases hp : internetProbe e' with
            | none => rfl
            | some p =>
              obtain ⟨k, hk⟩ := (probe_halfInt e).2 c hc
              obtain ⟨m, hm⟩ := (probe_halfInt e').2 p hp
              subst hk
              subst hm
              show some (roundTenth |(k : ℚ) / 2 - (m : ℚ) / 2|)
                  = some |(k : ℚ) / 2 - (m : ℚ) / 2|
              rw [roundTenth_half_diff]
  · rw [runDiag_prev_router]
    cases h : envs.getLast? <;> rfl
  · rw [runDiag_prev_internet]
    cases h : envs.getLast? <;> rfl

/-- Witness for C5 at the spec's example: probes of 12 ms then 15 ms give a
second-cycle jitter of exactly 3; the first cycle's jitter is absent. -/
theorem jitter_consecutive_cycles_witness :
    (((runDiag initDiagState [envPing12, envPing15]).2[1]?).map Diag.router_jitter
        = some (jitterSpec routerProbe [envPing12, envPing15] 1))
    ∧ jitterSpec routerProbe [envPing12, envPing15] 1 = some 3
    ∧ jitterSpec routerProbe [envPing12, envPing15] 0 = none := by
  refine ⟨?_, by with_unfolding_all decide, rfl⟩
  cases hE : (runDiag initDiagState [envPing12, envPing15]).2[1]? with
  | none => exact absurd hE (by with_unfolding_all decide)
  | some d =>
    rw [Option.map_some']
    rw [((jitter_consecutive_cycles [envPing12, envPing15]).1 1 d hE).1]

theorem runHistories_key (ds : List Diag) (k : String) (hk : k ∈ HISTORY_KEYS) :
    ∀ h, runHistories h ds k
      = (ds.map (fun d => diagMetric d k)).foldl (dequeAppend HISTORY_SIZE) (h k) := by
  induction ds with
  | nil => intro h; rfl
  | cons d rest ih =>
    intro h
    show runHistories (updateHistories h d) rest k = _
    rw [ih, List.map_cons, List.foldl_cons]
    congr 1
    simp [updateHistories, hk]

/-- C6: every diagnostics cycle appends exactly one value (or absence
marker) to each tracked metric's history, evicting the oldest entry when
the sequence is at capacity 60; after N cycles each tracked history has
length min(N, 60), holds the values of the most recent cycles in cycle
order, and for N > 60 its oldest retained entry is the value produced by
cycle N − 60 + 1. -/
theorem history_bounded (envs : List CycleEnv) (k : String)
    (hk : k ∈ HISTORY_KEYS) :
    (runHistories initHistories (runDiag initDiagState envs).2 k).length
        = min envs.length HISTORY_SIZE
    ∧ runHistories initHistories (runDiag initDiagState envs).2 k
        = ((runDiag initDiagState envs).2.map (fun d => diagMetric d k)).drop
            (envs.length - HISTORY_SIZE)
    ∧ (HISTORY_SIZE < envs.length →
        (runHistories initHistories (runDiag initDiagState envs).2 k)[0]?
          = ((runDiag initDiagState envs).2.map (fun d => diagMetric d k))[envs.length - HISTORY_SIZE]?) := by
  have hlen : ((runDiag initDiagState envs).2.map (fun d => diagMetric d k)).length
      = envs.length := by
    rw [List.length_map, runDiag_length]
  have hmain : runHistories initHistories (runDiag initDiagState envs).2 k
      = ((runDiag initDiagState envs).2.map (fun d => diagMetric d k)).drop
          (envs.length - HISTORY_SIZE) := by
    rw [runHistories_key _ k hk, show initHistories k = [] from rfl,
      dequeAppend_foldl HISTORY_SIZE (by decide), hlen]
  refine ⟨?_, hmain, ?_⟩
  · rw [hmain, List.length_drop, hlen]
    omega
  · intro hN
    rw [hmain, List.getElem?_drop, Nat.add_zero]

/-- Witness for C6 at 61 cycles of the router-ping metric: the history is
capped at 60 entries and starts at cycle 2's value. -/
theorem history_bounded_witness :
    (runHistories initHistories
        (runDiag initDiagState (List.replicate 61 envDown)).2 "router_ping").length
        = min (List.replicate 61 envDown).length HISTORY_SIZE
    ∧ runHistories initHistories
        (runDiag initDiagState (List.replicate 61 envDown)).2 "router_ping"
        = ((runDiag initDiagState (List.replicate 61 envDown)).2.map
            (fun d => diagMetric d "router_ping")).drop
            ((List.replicate 61 envDown).length - HISTORY_SIZE)
    ∧ (HISTORY_SIZE < (List.replicate 61 envDown).length →
        (runHistories initHistories
            (runDiag initDiagState (List.replicate 61 envDown)).2 "router_ping")[0]?
          = ((runDiag initDiagState (List.replicate 61 envDown)).2.map
              (fun d => diagMetric d "router_ping"))[(List.replicate 61 envDown).length
                - HISTORY_SIZE]?) :=
  history_bounded (List.replicate 61 envDown) "router_ping" (by decide)

/-- Counterexample to C2 as stated: a diagnostics cycle whose
interface-status command raises is not caught at the polling loop's
cycle-invocation boundary and is not treated as "no data this cycle" — the
failure is absorbed inside `_get_interface_info` (server.py lines 202-204),
and the cycle still completes: it publishes a full snapshot whose interface
fields are the defaults, records the cycle as a failed probe attempt in the
loss window, and reports loss 100 rather than publishing nothing. -/
theorem pipeline_failure_counterexample :
    (runDiag initDiagState [envExc]).2.length = 1
    ∧ ((runDiag initDiagState [envExc]).2[0]?).map Diag.info = some defaultInfo
    ∧ (runDiag initDiagState [envExc]).1.router_ping_results = [0]
    ∧ ((runDiag initDiagState [envExc]).2[0]?).map Diag.router_loss = some 100 := by
  refine ⟨rfl, ?_, ?_, ?_⟩ <;> with_unfolding_all decide

/-- C2 amended: pipeline failures are caught at component boundaries, not
at the polling loops' cycle-invocation boundaries.  The discovery loop
publishes one (possibly empty) result every cycle because `scan_networks`
wraps its whole pipeline in a handler that returns the empty list; the
diagnostics loop publishes one snapshot every cycle because each helper
absorbs its own failures into default values — a cycle with a failing
interface command still publishes a snapshot with default interface
fields.  Neither loop terminates on such failures, but a failing step
degrades the published data instead of yielding "no data this cycle". -/
theorem pipeline_failures_absorbed :
    (∀ cycles : List (PyResult (List ScanLine)),
        (networkPollRun cycles).length = cycles.length)
    ∧ (∀ msg, scanNetworks (PyResult.exc msg) = [])
    ∧ (∀ (st : DiagState) (envs : List CycleEnv),
        (runDiag st envs).2.length = envs.length)
    ∧ (∀ (st : DiagState) (env : CycleEnv) (msg : String),
        env.iface = PyResult.exc msg →
        (collectDiagnostics st env).2.info = defaultInfo
        ∧ (collectDiagnostics st env).2.gateway = ""
        ∧ (collectDiagnostics st env).2.router_ping = none
        ∧ (collectDiagnostics st env).2.internet_ping = none
        ∧ (collectDiagnostics st env).2.dns_lookup = none) := by
  refine ⟨?_, ?_, ?_, ?_⟩
  · intro cycles
    exact List.length_map cycles scanNetworks
  · intro msg
    rfl
  · intro st envs
    exact runDiag_length envs st
  · intro st env msg h
    have hc : (getInterfaceInfo env.iface).connected = false := by
      rw [h]
      rfl
    refine ⟨?_, ?_, ?_, ?_, ?_⟩ <;>
      simp [collectDiagnostics, getInterfaceInfo, h, hc, defaultInfo]

/-- Witness for C2 amended at a concrete failing interface command. -/
theorem pipeline_failures_absorbed_witness :
    (collectDiagnostics initDiagState envExc).2.info = defaultInfo
    ∧ (collectDiagnostics initDiagState envExc).2.gateway = ""
    ∧ (collectDiagnostics initDiagState envExc).2.router_ping = none
    ∧ (collectDiagnostics initDiagState envExc).2.internet_ping = none
    ∧ (collectDiagnostics initDiagState envExc).2.dns_lookup = none :=
  pipeline_failures_absorbed.2.2.2 initDiagState envExc "netsh raised" rfl

theorem publishActs_length (n : ℕ) : (publishActs n).length = 2 * n := by
  induction n with
  | zero => rfl
  | succ m ih =>
    rw [publishActs, List.length_append, ih]
    simp
    omega

theorem runActs_append (s : PubState) (l1 l2 : List PubAct) :
    runActs s (l1 ++ l2) = runActs (runActs s l1) l2 := by
  rw [runActs, runActs, runActs, List.foldl_append]

theorem runActs_publish (n : ℕ) :
    runActs initPub (publishActs n) = ⟨n, List.range' 1 n⟩ := by
  induction n with
  | zero => rfl
  | succ m ih =>
    rw [publishActs, runActs_append, ih]
    show applyAct (applyAct ⟨m, List.range' 1 m⟩ (.appendHist (m + 1)))
        (.setCurrent (m + 1)) = _
    simp only [applyAct]
    rw [List.range'_concat, show 1 + 1 * m = m + 1 from by omega]

theorem publishActs_take (N i : ℕ) (h : i ≤ 2 * N) :
    (publishActs N).take i
      = publishActs (i / 2)
        ++ (if i % 2 = 1 then [PubAct.appendHist (i / 2 + 1)] else []) := by
  induction N with
  | zero =>
    have hi : i = 0 := by omega
    subst hi
    rfl
  | succ M ih =>
    by_cases h1 : i ≤ 2 * M
    · rw [publishActs,
        List.take_append_of_le_length (by rw [publishActs_length]; omega)]
      exact ih h1
    · by_cases h2 : i = 2 * M + 1
      · subst h2
        have hd : (2 * M + 1) / 2 = M := by omega
        rw [hd, if_pos (by omega : (2 * M + 1) % 2 = 1)]
        rw [publishActs]
        rw [show 2 * M + 1 = (publishActs M).length + 1 from by
          rw [publishActs_length], List.take_append]
        rfl
      · have h3 : i = 2 * M + 2 := by omega
        subst h3
        have hd : (2 * M + 2) / 2 = M + 1 := by omega
        rw [hd, if_neg (by omega : ¬ (2 * M + 2) % 2 = 1), List.append_nil]
        have hlen : (publishActs (M + 1)).length = 2 * M + 2 := by
          rw [publishActs_length]; omega
        rw [show (2 * M + 2) = (publishActs (M + 1)).length from hlen.symm,
          List.take_length]

theorem runActs_take (N i : ℕ) (h : i ≤ 2 * N) :
    runActs initPub ((publishActs N).take i)
      = ⟨i / 2, List.range' 1 ((i + 1) / 2)⟩ := by
  rw [publishActs_take N i h]
  rw [runActs_append, runActs_publish]
  by_cases hp : i % 2 = 1
  · rw [if_pos hp]
    show applyAct ⟨i / 2, List.range' 1 (i / 2)⟩ (.appendHist (i / 2 + 1)) = _
    simp only [applyAct]
    rw [show (i + 1) / 2 = i / 2 + 1 from by omega, List.range'_concat,
      show 1 + 1 * (i / 2) = i / 2 + 1 from by omega]
  · rw [if_neg hp]
    show (⟨i / 2, List.range' 1 (i / 2)⟩ : PubState) = _
    rw [show (i + 1) / 2 = i / 2 from by omega]

/-- C1 amended: each of the two lock-held critical sections is atomic, so a
reader always observes a lock-quiescent state of the shared region: the
history is the cycle-ordered prefix 1..k of completed history appends
(internally consistent, never partially updated), and the current snapshot
comes from cycle k or cycle k−1.  The one-cycle skew — history already
holding cycle k's values while the current snapshot is still cycle
k−1's — is observable by a reader scheduled between a cycle's history
append and its snapshot swap, so the current snapshot and the history do
not always come from the same set of completed cycles. -/
theorem publish_skew_invariant (N i : ℕ) (h : i ≤ 2 * N) :
    (runActs initPub ((publishActs N).take i)).history
        = List.range' 1 (runActs initPub ((publishActs N).take i)).history.length
    ∧ ((runActs initPub ((publishActs N).take i)).diagnostics
          = (runActs initPub ((publishActs N).take i)).history.length
        ∨ (runActs initPub ((publishActs N).take i)).diagnostics + 1
          = (runActs initPub ((publishActs N).take i)).history.length) := by
  rw [runActs_take N i h]
  simp only [List.length_range']
  exact ⟨trivial, by omega⟩

/-- Counterexample to C1 as stated: the publish of one diagnostics cycle
consists of two separately-locked critical sections (history append inside
_collect_diagnostics, snapshot swap in _diag_poll_loop), so a reader
scheduled after cycle 2's history append but before its snapshot swap
(producer act prefix of length 3) observes history [1, 2] while the
current snapshot is still cycle 1's — data from two different cycles
mixed. -/
theorem publish_mixed_cycles_counterexample :
    runActs initPub ((publishActs 2).take 3)
        = { diagnostics := 1, history := [1, 2] }
    ∧ ¬ cycleConsistent { diagnostics := 1, history := [1, 2] } :=
  ⟨by with_unfolding_all decide,
   by simp only [cycleConsistent]; with_unfolding_all decide⟩

/-- Witness for C1 amended at the skew point itself. -/
theorem publish_skew_invariant_witness :
    (runActs initPub ((publishActs 2).take 3)).history
        = List.range' 1 (runActs initPub ((publishActs 2).take 3)).history.length
    ∧ ((runActs initPub ((publishActs 2).take 3)).diagnostics
          = (runActs initPub ((publishActs 2).take 3)).history.length
        ∨ (runActs initPub ((publishActs 2).take 3)).diagnostics + 1
          = (runActs initPub ((publishActs 2).take 3)).history.length) :=
  publish_skew_invariant 2 3 (by decide)

